import Mathlib

/-!
A shallow embedding of the cryptographic core of the AuCPace workspace:
the hash-domain and transcript layer and the keypair and scalar utilities
of `src/aucpace/src/utils.rs`, and the secret-wrapper types of
`src/secret-utils/src/lib.rs`.

Modelling conventions:
* byte strings are `List Nat` whose entries are byte values;
* the generic digest type `D` is represented by the stream of bytes it has
  absorbed, together with an arbitrary finalisation function
  `f : Bytes → Bytes` standing for the concrete digest;
* the Ristretto255 group has prime order and is cyclic, so points are
  represented in exponent form as `ZMod ristrettoOrder`: the identity is
  `0`, the basepoint is `1`, and scalar multiplication acts by
  multiplication in `ZMod ristrettoOrder`;
* fallible Rust functions returning `Result` become `Except Error`.
-/

/-- Byte strings: lists of byte values. -/
abbrev Bytes := List Nat

/-- Little-endian integer value of a byte string, as curve25519-dalek
interprets scalar byte arrays. -/
def leNat : Bytes → Nat
  | [] => 0
  | b :: bs => b + 256 * leNat bs

/-- Little-endian byte encoding of a natural number with the given width. -/
def natToLE : Nat → Nat → Bytes
  | 0, _ => []
  | w + 1, n => n % 256 :: natToLE w (n / 256)

/-- The 4-byte little-endian encoding of a Rust `u32`
(`N.to_le_bytes()`); the reduction `% 2 ^ 32` models the machine width. -/
def u32le (n : Nat) : Bytes := natToLE 4 (n % 2 ^ 32)

/-- Model of a `Digest` hasher: the stream of bytes absorbed so far. -/
structure Hasher where
  absorbed : Bytes

/-- The `update` method: absorb further bytes after the current stream. -/
def Hasher.update (h : Hasher) (d : Bytes) : Hasher := ⟨h.absorbed ++ d⟩

/-- The `finalize` method: apply the digest function `f` standing for the
concrete hash to the whole absorbed stream. -/
def Hasher.finalize (f : Bytes → Bytes) (h : Hasher) : Bytes := f h.absorbed

/-- The function `H<D, N>()` of utils.rs: a fresh (default) hasher which
absorbs the 4-byte little-endian encoding of the domain index `N` as its
first input. -/
def H (N : Nat) : Hasher := Hasher.update ⟨[]⟩ (u32le N)

/-- Domain-separated constructor `H0` of utils.rs. -/
def H0 : Hasher := H 0

/-- Domain-separated constructor `H1` of utils.rs. -/
def H1 : Hasher := H 1

/-- Domain-separated constructor `H2` of utils.rs. -/
def H2 : Hasher := H 2

/-- Domain-separated constructor `H3` of utils.rs. -/
def H3 : Hasher := H 3

/-- Domain-separated constructor `H4` of utils.rs. -/
def H4 : Hasher := H 4

/-- Domain-separated constructor `H5` of utils.rs. -/
def H5 : Hasher := H 5

/-- The order of the Ristretto255 group: the prime
2 ^ 252 + 27742317777372353535851937790883648493. -/
def ristrettoOrder : Nat :=
  7237005577332262213973186563042994240857116359379907606001950938285454250989

/-- Scalars: integers modulo the Ristretto255 group order. -/
abbrev Scalar := ZMod ristrettoOrder

/-- Ristretto255 points in exponent form: the group is cyclic of prime
order, so a point is represented by its discrete logarithm with respect to
the basepoint.  The identity is `0` and the basepoint is `1`. -/
abbrev RistrettoPoint := ZMod ristrettoOrder

/-- Scalar multiplication `pub_key * priv_key`
(Rust `RistrettoPoint * Scalar`): in exponent form, multiplication in
`ZMod ristrettoOrder`. -/
def pmul (P : RistrettoPoint) (s : Scalar) : RistrettoPoint := P * s

/-- The Ristretto basepoint, exponent `1`. -/
def RISTRETTO_BASEPOINT_POINT : RistrettoPoint := 1

/-- The canonical compressed 32-byte encoding
(`compress().to_bytes()`): in exponent form, the little-endian bytes of
the canonical residue. -/
def compress (P : RistrettoPoint) : Bytes := natToLE 32 (ZMod.val P)

/-- Rust `Scalar::from_bytes_mod_order`: interpret 32 bytes little-endian
and reduce modulo the group order. -/
def Scalar.from_bytes_mod_order (b : Bytes) : Scalar := (leNat b : Scalar)

/-- Rust `Scalar::from_bytes_mod_order_wide`: interpret 64 bytes
little-endian and reduce modulo the group order (wide reduction). -/
def Scalar.from_bytes_mod_order_wide (b : Bytes) : Scalar := (leNat b : Scalar)

/-- Rust `Scalar::from_hash`: finalize the 64-byte digest and wide-reduce
its output modulo the group order. -/
def Scalar.from_hash (f : Bytes → Bytes) (h : Hasher) : Scalar :=
  Scalar.from_bytes_mod_order_wide (Hasher.finalize f h)

/-- Rust `RistrettoPoint::from_hash`: finalize the digest and map its
64-byte output to a point; the point-valued map (Elligator applied twice
and added) is external to the repository and passed in as `hashToPoint`. -/
def RistrettoPoint.from_hash (hashToPoint : Bytes → RistrettoPoint)
    (f : Bytes → Bytes) (h : Hasher) : RistrettoPoint :=
  hashToPoint (Hasher.finalize f h)

/-- The error kinds of the crate used by utils.rs and the server flow. -/
inductive Error where
  | Rng
  | HashEmpty
  | HashSizeInvalid
  | IllegalPointError
deriving DecidableEq

/-- The `Result` alias of the crate. -/
abbrev Result (α : Type) := Except Error α

/-- A CSPRNG draw: `try_fill_bytes` on a buffer of the requested size
either fails (`none`) or produces the bytes that fill it. -/
def Rng := Nat → Option Bytes

/-- `generate_nonce` of utils.rs: fill an `N`-byte nonce from the CSPRNG,
surfacing a fill failure as `Error::Rng`. -/
def generate_nonce (N : Nat) (rng : Rng) : Result Bytes :=
  match rng N with
  | none => .error .Rng
  | some nonce => .ok nonce

/-- `compute_ssid` of utils.rs: H0 hasher updated with the server nonce
`s` and then the client nonce `t`, finalized. -/
def compute_ssid (f : Bytes → Bytes) (s t : Bytes) : Bytes :=
  Hasher.finalize f (Hasher.update (Hasher.update H0 s) t)

/-- `generate_keypair` of utils.rs: derive the CPace generator from the H1
hasher updated with ssid, prs and ci; draw 64 CSPRNG bytes (failure is
`Error::Rng`); hash them into the private scalar; multiply the generator
by private key times cofactor (one). -/
def generate_keypair (f : Bytes → Bytes) (hashToPoint : Bytes → RistrettoPoint)
    (rng : Rng) (ssid prs ci : Bytes) : Result (Scalar × RistrettoPoint) :=
  let hasher := Hasher.update (Hasher.update (Hasher.update H1 ssid) prs) ci
  let generator := RistrettoPoint.from_hash hashToPoint f hasher
  match rng 64 with
  | none => .error .Rng
  | some rng_bytes =>
    let rng_hasher : Hasher := Hasher.update ⟨[]⟩ rng_bytes
    let priv_key := Scalar.from_hash f rng_hasher
    let cofactor : Scalar := 1
    let pub_key := pmul generator (priv_key * cofactor)
    .ok (priv_key, pub_key)

/-- `compute_first_session_key` of utils.rs: sk1 is the finalisation of
the H2 hasher updated with the ssid and the compressed shared point. -/
def compute_first_session_key (f : Bytes → Bytes) (ssid : Bytes)
    (priv_key : Scalar) (pub_key : RistrettoPoint) : Bytes :=
  let shared_point := pmul pub_key priv_key
  Hasher.finalize f (Hasher.update (Hasher.update H2 ssid) (compress shared_point))

/-- `compute_authenticator_messages` of utils.rs: Ta from the H3 hasher
and Tb from the H4 hasher, each updated with ssid then sk1. -/
def compute_authenticator_messages (f : Bytes → Bytes) (ssid sk1 : Bytes) :
    Bytes × Bytes :=
  (Hasher.finalize f (Hasher.update (Hasher.update H3 ssid) sk1),
   Hasher.finalize f (Hasher.update (Hasher.update H4 ssid) sk1))

/-- `compute_session_key` of utils.rs: sk is the finalisation of the H5
hasher updated with ssid then sk1. -/
def compute_session_key (f : Bytes → Bytes) (ssid sk1 : Bytes) : Bytes :=
  Hasher.finalize f (Hasher.update (Hasher.update H5 ssid) sk1)

/-- The hash byte field of a PHC `PasswordHash` value, when present. -/
structure PasswordHash where
  hash : Option Bytes

/-- `scalar_from_hash` of utils.rs: an absent hash is `Error::HashEmpty`;
32 bytes are reduced plainly and 64 bytes widely modulo the group order;
any other length is `Error::HashSizeInvalid`. -/
def scalar_from_hash (pw_hash : PasswordHash) : Result Scalar :=
  match pw_hash.hash with
  | none => .error .HashEmpty
  | some hash_bytes =>
    if hash_bytes.length = 32 then
      .ok (Scalar.from_bytes_mod_order hash_bytes)
    else if hash_bytes.length = 64 then
      .ok (Scalar.from_bytes_mod_order_wide hash_bytes)
    else
      .error .HashSizeInvalid

/-- `generate_server_keypair` of utils.rs: draw 64 CSPRNG bytes (failure
is `Error::Rng`), hash them into the private scalar, and multiply the
basepoint by private key times cofactor (one). -/
def generate_server_keypair (f : Bytes → Bytes) (rng : Rng) :
    Result (Scalar × RistrettoPoint) :=
  let cofactor : Scalar := 1
  match rng 64 with
  | none => .error .Rng
  | some rng_bytes =>
    let rng_hasher : Hasher := Hasher.update ⟨[]⟩ rng_bytes
    let private_key := Scalar.from_hash f rng_hasher
    .ok (private_key, pmul RISTRETTO_BASEPOINT_POINT (private_key * cofactor))

/-- `SecretBytes` of secret-utils: a zeroizing wrapper around an owned
byte vector. -/
structure SecretBytes where
  data : Bytes

/-- `SecretBytes::new`. -/
def SecretBytes.new (bytes : Bytes) : SecretBytes := ⟨bytes⟩

/-- `From<Vec<u8>> for SecretBytes`. -/
def SecretBytes.fromVec (v : Bytes) : SecretBytes := ⟨v⟩

/-- `SecretBytes::expose`: borrow the inner bytes. -/
def SecretBytes.expose (s : SecretBytes) : Bytes := s.data

/-- `SecretBytes::into_inner`: `mem::take` returns the inner vector and
leaves the wrapper holding an empty buffer, which is then dropped. -/
def SecretBytes.into_inner (s : SecretBytes) : Bytes × SecretBytes :=
  (s.data, ⟨[]⟩)

/-- `SecretKey` of secret-utils: a zeroizing wrapper for derived key
material. -/
structure SecretKey where
  data : Bytes

/-- `SecretKey::new`. -/
def SecretKey.new (bytes : Bytes) : SecretKey := ⟨bytes⟩

/-- `From<Vec<u8>> for SecretKey`. -/
def SecretKey.fromVec (v : Bytes) : SecretKey := ⟨v⟩

/-- `SecretKey::expose`: borrow the inner key bytes. -/
def SecretKey.expose (s : SecretKey) : Bytes := s.data

/-- `SecretKey::into_inner`: `mem::take` returns the inner vector and
leaves the wrapper holding an empty buffer, which is then dropped. -/
def SecretKey.into_inner (s : SecretKey) : Bytes × SecretKey :=
  (s.data, ⟨[]⟩)

/-- `SecretKey::ct_eq` of secret-utils: fold the length difference,
truncated to a `u8`, into the accumulator, then OR in the XOR of the
bytes at every position below `max_len`, reading positions past the end
of either buffer as `0`; equal iff the accumulator ends at zero. -/
def SecretKey.ct_eq (a b : SecretKey) : Bool :=
  let max_len := if a.data.length > b.data.length then a.data.length
    else b.data.length
  let acc0 : Nat := (a.data.length ^^^ b.data.length) % 256
  (List.range max_len).foldl
    (fun acc i => acc ||| (a.data.getD i 0 ^^^ b.data.getD i 0)) acc0 == 0

/-- The comparison loop of `SecretKey::ct_eq` instrumented with the
number of loop iterations performed: the same accumulator as the source
loop, paired with a step counter. -/
def SecretKey.ct_eq_scan (a b : SecretKey) : Nat × Bool :=
  let max_len := if a.data.length > b.data.length then a.data.length
    else b.data.length
  let acc0 : Nat := (a.data.length ^^^ b.data.length) % 256
  let r := (List.range max_len).foldl
    (fun p i => (p.1 + 1, p.2 ||| (a.data.getD i 0 ^^^ b.data.getD i 0)))
    ((0 : Nat), acc0)
  (r.1, r.2 == 0)

/-- Modelled from the spec: the `Zeroize` implementation for the inner
vector comes from the external zeroize crate, pulled in by
`#[derive(Zeroize, ZeroizeOnDrop)]` in secret-utils and not under src/;
per the spec it overwrites every held byte with zero. -/
def SecretBytes.zeroizeBuf (s : SecretBytes) : SecretBytes :=
  ⟨List.replicate s.data.length 0⟩

/-- Modelled from the spec: `ZeroizeOnDrop` (not under src/) runs
`zeroize` when a `SecretBytes` is dropped, so the buffer observable after
the drop is the zeroized buffer. -/
def SecretBytes.dropped (s : SecretBytes) : Bytes :=
  (SecretBytes.zeroizeBuf s).data

/-- Modelled from the spec: the `Zeroize` implementation for the inner
vector of `SecretKey` (external zeroize crate, not under src/): every
held byte is overwritten with zero. -/
def SecretKey.zeroizeBuf (s : SecretKey) : SecretKey :=
  ⟨List.replicate s.data.length 0⟩

/-- Modelled from the spec: `ZeroizeOnDrop` (not under src/) runs
`zeroize` when a `SecretKey` is dropped, so the buffer observable after
the drop is the zeroized buffer. -/
def SecretKey.dropped (s : SecretKey) : Bytes :=
  (SecretKey.zeroizeBuf s).data

/-- PHC parameter strings, compared as validated ASCII. -/
structure ParamsString where
  s : String
deriving DecidableEq

/-- `ParamsString::default`: the empty parameter segment. -/
def ParamsString.default : ParamsString := ⟨""⟩

/-- Modelled from the spec: the `Database` trait of the aucpace crate
(src/ holds only the test implementation); `lookup_verifier` maps a
username to the stored verifier, salt and KDF parameters, or `none` for
unknown users.  The salt is kept as its byte content. -/
structure Database where
  lookup_verifier : Bytes → Option (RistrettoPoint × Bytes × ParamsString)

/-- Modelled from the spec: the `StrongDatabase` trait of the aucpace
crate; `lookup_verifier_strong` maps a username to the stored verifier,
secret exponent and KDF parameters, or `none` for unknown users. -/
structure StrongDatabase where
  lookup_verifier_strong : Bytes → Option (RistrettoPoint × Scalar × ParamsString)

/-- The server messages relevant to the augmentation step. -/
inductive ServerMessage where
  | AugmentationInfo (group : String) (x_pub : RistrettoPoint)
      (salt : Bytes) (pbkdf_params : ParamsString)
  | StrongAugmentationInfo (group : String) (x_pub : RistrettoPoint)
      (blinded_salt : RistrettoPoint) (pbkdf_params : ParamsString)

/-- Modelled from the spec: the lookup-failed path derives a
deterministic pseudo-salt from (SSID, username) with a domain-separated
hash; domain index 6 is distinct from the six indices used by H0..H5. -/
def pseudo_salt (f : Bytes → Bytes) (ssid username : Bytes) : Bytes :=
  Hasher.finalize f (Hasher.update (Hasher.update (H 6) ssid) username)

/-- Modelled from the spec: the strong lookup-failed path derives a
pseudo-exponent deterministically from (SSID, username), nonzero — in
the prime-order group, invertible — by construction: the hash output is
kept when its residue is coprime to the group order and replaced by 1
otherwise. -/
def pseudo_exponent (f : Bytes → Bytes) (ssid username : Bytes) : Nat :=
  let h := leNat (Hasher.finalize f
    (Hasher.update (Hasher.update (H 7) ssid) username)) % ristrettoOrder
  if Nat.Coprime h ristrettoOrder then h else 1

/-- Modelled from the spec: `generate_client_info` of the aucpace server
(server code is not under src/).  Generate the ephemeral server keypair;
look the user up; on `Some` answer with the stored salt and parameters,
on `None` take the lookup-failed path and answer with the pseudo-salt and
default parameters; the group string is always "ristretto255". -/
def generate_client_info (f : Bytes → Bytes) (rng : Rng) (db : Database)
    (ssid username : Bytes) : Result ServerMessage :=
  match generate_server_keypair f rng with
  | .error e => .error e
  | .ok (_, x_pub) =>
    match db.lookup_verifier username with
    | some (_, salt, params) =>
      .ok (.AugmentationInfo "ristretto255" x_pub salt params)
    | none =>
      .ok (.AugmentationInfo "ristretto255" x_pub
        (pseudo_salt f ssid username) ParamsString.default)

/-- Modelled from the spec: `generate_client_info_strong` of the aucpace
server (server code is not under src/).  Reject an identity blinded
point; generate the ephemeral server keypair; look the user up; on `Some`
answer with the stored exponent applied to the blinded point, on `None`
take the lookup-failed path with the pseudo-exponent and default
parameters; the group string is always "ristretto255". -/
def generate_client_info_strong (f : Bytes → Bytes) (rng : Rng)
    (db : StrongDatabase) (ssid username : Bytes)
    (blinded : RistrettoPoint) : Result ServerMessage :=
  if blinded = 0 then .error .IllegalPointError
  else
    match generate_server_keypair f rng with
    | .error e => .error e
    | .ok (_, x_pub) =>
      match db.lookup_verifier_strong username with
      | some (_, q, params) =>
        .ok (.StrongAugmentationInfo "ristretto255" x_pub (pmul blinded q) params)
      | none =>
        .ok (.StrongAugmentationInfo "ristretto255" x_pub
          (pmul blinded (pseudo_exponent f ssid username : Scalar))
          ParamsString.default)

/-! Helper lemmas shared by the theorems below. -/

theorem nat_or_eq_zero {x y : Nat} : x ||| y = 0 ↔ x = 0 ∧ y = 0 := by
  constructor
  · intro h
    constructor <;>
      (apply Nat.eq_of_testBit_eq
       intro i
       have hb := congrArg (fun n => Nat.testBit n i) h
       simp only [Nat.testBit_or, Nat.zero_testBit, Bool.or_eq_false_iff] at hb
       simp [hb.1, hb.2, Nat.zero_testBit])
  · rintro ⟨rfl, rfl⟩
    rfl

theorem foldl_or_eq_zero (g : Nat → Nat) :
    ∀ (l : List Nat) (a : Nat),
      (l.foldl (fun acc i => acc ||| g i) a = 0) ↔ (a = 0 ∧ ∀ i ∈ l, g i = 0)
  | [], a => by simp
  | x :: l, a => by
    rw [List.foldl_cons, foldl_or_eq_zero g l, nat_or_eq_zero]
    constructor
    · rintro ⟨⟨h1, h2⟩, h3⟩
      refine ⟨h1, fun i hi => ?_⟩
      rcases List.mem_cons.mp hi with rfl | hi
      · exact h2
      · exact h3 i hi
    · rintro ⟨h1, h2⟩
      exact ⟨⟨h1, h2 x (List.mem_cons_self x l)⟩,
        fun i hi => h2 i (List.mem_cons_of_mem x hi)⟩

theorem foldl_scan_count (g : Nat → Nat) :
    ∀ (l : List Nat) (c a : Nat),
      l.foldl (fun p i => (p.1 + 1, p.2 ||| g i)) (c, a) =
        (c + l.length, l.foldl (fun acc i => acc ||| g i) a)
  | [], c, a => by simp
  | x :: l, c, a => by
    rw [List.foldl_cons, List.foldl_cons, foldl_scan_count g l]
    simp only [List.length_cons, Prod.mk.injEq]
    exact ⟨by omega, trivial⟩

theorem if_gt_max (x y : Nat) : (if x > y then x else y) = max x y := by
  rcases Nat.lt_or_ge y x with h | h
  · rw [if_pos h, Nat.max_eq_left (Nat.le_of_lt h)]
  · rw [if_neg (Nat.not_lt.mpr h), Nat.max_eq_right h]

theorem ct_eq_true_iff (a b : SecretKey) :
    SecretKey.ct_eq a b = true ↔
      ((a.data.length ^^^ b.data.length) % 256 = 0 ∧
        ∀ i < max a.data.length b.data.length, a.data.getD i 0 = b.data.getD i 0) := by
  simp only [SecretKey.ct_eq, if_gt_max, beq_iff_eq,
    foldl_or_eq_zero, List.mem_range, Nat.xor_eq_zero]

theorem getD_set_self : ∀ (l : List Nat) (j x : Nat), j < l.length →
    (l.set j x).getD j 0 = x
  | _ :: _, 0, _, _ => rfl
  | _ :: l, j + 1, x, h => getD_set_self l j x (Nat.lt_of_succ_lt_succ h)

theorem replicate_all_zero : ∀ n : Nat,
    (List.replicate n 0).all (fun b => b == 0) = true
  | 0 => rfl
  | n + 1 => by
    rw [List.replicate_succ, List.all_cons, replicate_all_zero n]
    rfl

/-- Claim C3: `SecretKey::ct_eq` returns `true` on byte-equal keys;
on keys of equal length that differ in exactly one bit (position `j`,
bit `k`) it returns `false`; and its comparison loop folds the length
difference into the accumulator and performs exactly
`max (length a) (length b)` iterations whatever the buffer contents,
with no early exit. -/
theorem secretkey_ct_eq_correct (a b : SecretKey) :
    (a.data = b.data → SecretKey.ct_eq a b = true) ∧
    (∀ j k : Nat, j < a.data.length → k < 8 →
      b.data = a.data.set j (a.data.getD j 0 ^^^ 2 ^ k) →
      SecretKey.ct_eq a b = false) ∧
    (SecretKey.ct_eq_scan a b).1 = max a.data.length b.data.length ∧
    (SecretKey.ct_eq_scan a b).2 = SecretKey.ct_eq a b := by
  refine ⟨?_, ?_, ?_, ?_⟩
  · intro h
    rw [ct_eq_true_iff, h]
    exact ⟨by simp [Nat.xor_self], fun i _ => rfl⟩
  · intro j k hj _ hb
    by_contra hne
    rw [Bool.not_eq_false] at hne
    rcases (ct_eq_true_iff a b).mp hne with ⟨-, h2⟩
    have hjmax : j < max a.data.length b.data.length :=
      lt_of_lt_of_le hj (le_max_left _ _)
    have hgd := h2 j hjmax
    rw [hb, getD_set_self a.data j (a.data.getD j 0 ^^^ 2 ^ k) hj] at hgd
    have h0 := Nat.xor_eq_zero.mpr hgd
    rw [← Nat.xor_assoc, Nat.xor_self, Nat.zero_xor] at h0
    have hpos : 0 < (2 : Nat) ^ k := Nat.pow_pos (by norm_num)
    omega
  · simp only [SecretKey.ct_eq_scan, foldl_scan_count, if_gt_max]
    simp
  · simp only [SecretKey.ct_eq_scan, SecretKey.ct_eq, foldl_scan_count]

/-- Witness for C3 at concrete keys: equality, a single flipped bit
(byte 2, bit 2: `3 ^^^ 4 = 7`), and the iteration count on buffers of
lengths 3 and 2. -/
theorem secretkey_ct_eq_correct_witness :
    SecretKey.ct_eq ⟨[1, 2, 3]⟩ ⟨[1, 2, 3]⟩ = true ∧
    SecretKey.ct_eq ⟨[1, 2, 3]⟩ ⟨[1, 2, 7]⟩ = false ∧
    (SecretKey.ct_eq_scan ⟨[1, 2, 3]⟩ ⟨[9, 9]⟩).1 = 3 := by
  refine ⟨(secretkey_ct_eq_correct ⟨[1, 2, 3]⟩ ⟨[1, 2, 3]⟩).1 rfl, ?_, ?_⟩
  · exact (secretkey_ct_eq_correct ⟨[1, 2, 3]⟩ ⟨[1, 2, 7]⟩).2.1 2 2
      (by decide) (by decide) (by decide)
  · have h := (secretkey_ct_eq_correct ⟨[1, 2, 3]⟩ ⟨[9, 9]⟩).2.2.1
    simpa using h

set_option maxRecDepth 8192 in
/-- Claim C10: `ct_eq` truncates the XOR of the two lengths to one byte,
so keys of different lengths can compare equal — the empty key and the
256-byte all-zero key do — and in general `ct_eq a b = true` exactly when
the length XOR is divisible by 256 and the zero-padded buffers agree at
every position below the longer length. -/
theorem secretkey_ct_eq_length_collision :
    (∃ a b : SecretKey,
      a.data.length ≠ b.data.length ∧ SecretKey.ct_eq a b = true) ∧
    ∀ a b : SecretKey, SecretKey.ct_eq a b = true ↔
      ((a.data.length ^^^ b.data.length) % 256 = 0 ∧
        ∀ i < max a.data.length b.data.length,
          a.data.getD i 0 = b.data.getD i 0) := by
  refine ⟨⟨⟨[]⟩, ⟨List.replicate 256 0⟩, by simp, by decide⟩, ct_eq_true_iff⟩

/-- Witness for C10 applying the characterisation at a concrete pair. -/
theorem secretkey_ct_eq_length_collision_witness :
    SecretKey.ct_eq ⟨[5]⟩ ⟨[5]⟩ = true :=
  (secretkey_ct_eq_length_collision.2 ⟨[5]⟩ ⟨[5]⟩).mpr (by decide)

/-- Claim C9: the secret wrappers round-trip: `into_inner` after
construction from a vector returns that vector, and `expose` on a wrapper
constructed from `v` returns exactly the bytes of `v`. -/
theorem secret_wrapper_round_trip (v : Bytes) :
    (SecretBytes.into_inner (SecretBytes.fromVec v)).1 = v ∧
    (SecretKey.into_inner (SecretKey.new v)).1 = v ∧
    SecretBytes.expose (SecretBytes.fromVec v) = v ∧
    SecretKey.expose (SecretKey.fromVec v) = v :=
  ⟨rfl, rfl, rfl, rfl⟩

/-- Claim C8: after a `SecretBytes` or `SecretKey` is dropped (and after
an explicit zeroize call) every byte position the buffer previously held
reads zero, and the zeroized buffer spans the same positions. -/
theorem zeroize_on_drop (s : SecretBytes) (k : SecretKey) :
    (SecretBytes.dropped s).all (fun b => b == 0) = true ∧
    (SecretBytes.dropped s).length = s.data.length ∧
    (SecretBytes.zeroizeBuf s).data.all (fun b => b == 0) = true ∧
    (SecretKey.dropped k).all (fun b => b == 0) = true ∧
    (SecretKey.dropped k).length = k.data.length ∧
    (SecretKey.zeroizeBuf k).data.all (fun b => b == 0) = true :=
  ⟨replicate_all_zero _, List.length_replicate _ _, replicate_all_zero _,
   replicate_all_zero _, List.length_replicate _ _, replicate_all_zero _⟩

/-- Claim C4: `scalar_from_hash` case analysis: an absent hash field
yields `HashEmpty`; a 32-byte hash yields the plain reduction of its
bytes modulo the group order; a 64-byte hash yields the wide reduction;
any other length yields `HashSizeInvalid`. -/
theorem scalar_from_hash_cases (pw : PasswordHash) :
    (pw.hash = none → scalar_from_hash pw = .error .HashEmpty) ∧
    (∀ hb : Bytes, pw.hash = some hb → hb.length = 32 →
      scalar_from_hash pw = .ok (Scalar.from_bytes_mod_order hb)) ∧
    (∀ hb : Bytes, pw.hash = some hb → hb.length = 64 →
      scalar_from_hash pw = .ok (Scalar.from_bytes_mod_order_wide hb)) ∧
    (∀ hb : Bytes, pw.hash = some hb → hb.length ≠ 32 → hb.length ≠ 64 →
      scalar_from_hash pw = .error .HashSizeInvalid) := by
  refine ⟨?_, ?_, ?_, ?_⟩
  · intro h
    simp [scalar_from_hash, h]
  · intro hb h hl
    simp [scalar_from_hash, h, hl]
  · intro hb h hl
    simp [scalar_from_hash, h, hl]
  · intro hb h hl1 hl2
    simp [scalar_from_hash, h, hl1, hl2]

/-- Witness for C4 at concrete password hashes of each shape. -/
theorem scalar_from_hash_cases_witness :
    scalar_from_hash ⟨none⟩ = .error .HashEmpty ∧
    scalar_from_hash ⟨some (List.replicate 32 1)⟩ =
      .ok (Scalar.from_bytes_mod_order (List.replicate 32 1)) ∧
    scalar_from_hash ⟨some (List.replicate 64 2)⟩ =
      .ok (Scalar.from_bytes_mod_order_wide (List.replicate 64 2)) ∧
    scalar_from_hash ⟨some [1, 2, 3]⟩ = .error .HashSizeInvalid :=
  ⟨(scalar_from_hash_cases ⟨none⟩).1 rfl,
   (scalar_from_hash_cases _).2.1 _ rfl (by simp),
   (scalar_from_hash_cases _).2.2.1 _ rfl (by simp),
   (scalar_from_hash_cases _).2.2.2 _ rfl (by simp) (by simp)⟩

/-- Claim C5: domain separation of the hash constructors: each of H0..H5
absorbs the 4-byte little-endian tag of its index before any
caller-supplied input, the tags are 4 bytes long, and the six first
blocks are pairwise distinct. -/
theorem hash_domain_separation (d : Bytes) :
    (Hasher.update H0 d).absorbed = u32le 0 ++ d ∧
    (Hasher.update H1 d).absorbed = u32le 1 ++ d ∧
    (Hasher.update H2 d).absorbed = u32le 2 ++ d ∧
    (Hasher.update H3 d).absorbed = u32le 3 ++ d ∧
    (Hasher.update H4 d).absorbed = u32le 4 ++ d ∧
    (Hasher.update H5 d).absorbed = u32le 5 ++ d ∧
    (∀ i : Nat, (u32le i).length = 4) ∧
    List.Pairwise (fun x y => x ≠ y)
      [u32le 0, u32le 1, u32le 2, u32le 3, u32le 4, u32le 5] :=
  ⟨rfl, rfl, rfl, rfl, rfl, rfl, fun _ => rfl, by decide⟩

/-- Claim C6: every transcript hash consumes its inputs in the canonical
order domain tag, then SSID, then the remaining fields: `compute_ssid`
hashes tag0 plus s plus t; `generate_keypair` derives its generator from
tag1 plus ssid plus prs plus ci; `compute_first_session_key` hashes tag2
plus ssid plus the compressed shared point; the authenticator messages
hash tag3 resp. tag4 plus ssid plus sk1; `compute_session_key` hashes
tag5 plus ssid plus sk1. -/
theorem transcript_canonical_order (f : Bytes → Bytes)
    (hashToPoint : Bytes → RistrettoPoint) (rng : Rng)
    (s t ssid prs ci sk1 : Bytes) (priv_key : Scalar)
    (pub_key : RistrettoPoint) :
    compute_ssid f s t = f (u32le 0 ++ s ++ t) ∧
    (∀ rb : Bytes, rng 64 = some rb →
      generate_keypair f hashToPoint rng ssid prs ci =
        .ok (Scalar.from_bytes_mod_order_wide (f rb),
          pmul (hashToPoint (f (u32le 1 ++ ssid ++ prs ++ ci)))
            (Scalar.from_bytes_mod_order_wide (f rb) * 1))) ∧
    compute_first_session_key f ssid priv_key pub_key =
      f (u32le 2 ++ ssid ++ compress (pmul pub_key priv_key)) ∧
    compute_authenticator_messages f ssid sk1 =
      (f (u32le 3 ++ ssid ++ sk1), f (u32le 4 ++ ssid ++ sk1)) ∧
    compute_session_key f ssid sk1 = f (u32le 5 ++ ssid ++ sk1) := by
  refine ⟨rfl, ?_, rfl, rfl, rfl⟩
  intro rb h
  simp [generate_keypair, h, RistrettoPoint.from_hash, Scalar.from_hash,
    Hasher.update, Hasher.finalize, H1, H]

/-- Witness for C6: the keypair component at concrete inputs. -/
theorem transcript_canonical_order_witness :
    generate_keypair id (fun b => (leNat b : RistrettoPoint))
      (fun n => some (List.replicate n 3)) [1] [2] [3] =
      .ok (Scalar.from_bytes_mod_order_wide (List.replicate 64 3),
        pmul ((leNat (u32le 1 ++ [1] ++ [2] ++ [3]) : RistrettoPoint))
          (Scalar.from_bytes_mod_order_wide (List.replicate 64 3) * 1)) := by
  have h := (transcript_canonical_order id
    (fun b => (leNat b : RistrettoPoint)) (fun n => some (List.replicate n 3))
    [] [] [1] [2] [3] [] 0 0).2.1 (List.replicate 64 3) rfl
  simpa using h

/-- Claim C7: `generate_nonce`, `generate_keypair` and
`generate_server_keypair` return `Error::Rng` exactly when the CSPRNG
fill fails, return the filled value on success, and are free functions of
the CSPRNG alone, so a failed draw produces nothing but the error and a
later call with a functioning CSPRNG succeeds. -/
theorem rng_failure_handling (f : Bytes → Bytes)
    (hashToPoint : Bytes → RistrettoPoint) (rng : Rng) (N : Nat)
    (ssid prs ci : Bytes) :
    (generate_nonce N rng = .error .Rng ↔ rng N = none) ∧
    (∀ bs : Bytes, rng N = some bs → generate_nonce N rng = .ok bs) ∧
    (generate_keypair f hashToPoint rng ssid prs ci = .error .Rng ↔
      rng 64 = none) ∧
    (generate_server_keypair f rng = .error .Rng ↔ rng 64 = none) ∧
    (∀ retry : Rng, ∀ rb : Bytes, retry 64 = some rb →
      ∃ kp, generate_server_keypair f retry = .ok kp) := by
  refine ⟨?_, ?_, ?_, ?_, ?_⟩
  · cases hr : rng N <;> simp [generate_nonce, hr]
  · intro bs h
    simp [generate_nonce, h]
  · cases hr : rng 64 <;> simp [generate_keypair, hr]
  · cases hr : rng 64 <;> simp [generate_server_keypair, hr]
  · intro retry rb h
    exact ⟨(Scalar.from_hash f (Hasher.update ⟨[]⟩ rb),
      pmul RISTRETTO_BASEPOINT_POINT
        (Scalar.from_hash f (Hasher.update ⟨[]⟩ rb) * 1)),
      by simp [generate_server_keypair, h]⟩

/-- Witness for C7: a failing CSPRNG yields `Error::Rng` and a functioning
one yields the filled nonce. -/
theorem rng_failure_handling_witness :
    generate_nonce 16 (fun _ => none) = .error .Rng ∧
    generate_nonce 16 (fun n => some (List.replicate n 0)) =
      .ok (List.replicate 16 0) ∧
    generate_server_keypair id (fun _ => none) = .error .Rng := by
  refine ⟨?_, ?_, ?_⟩
  · exact (rng_failure_handling id (fun _ => 0) (fun _ => none)
      16 [] [] []).1.mpr rfl
  · exact (rng_failure_handling id (fun _ => 0)
      (fun n => some (List.replicate n 0)) 16 [] [] []).2.1 _ rfl
  · exact (rng_failure_handling id (fun _ => 0) (fun _ => none)
      16 [] [] []).2.2.2.1.mpr rfl

instance : NeZero ristrettoOrder := ⟨by norm_num [ristrettoOrder]⟩

instance : Fact (1 < ristrettoOrder) := ⟨by norm_num [ristrettoOrder]⟩

theorem pseudo_exponent_coprime (f : Bytes → Bytes) (ssid username : Bytes) :
    Nat.Coprime (pseudo_exponent f ssid username) ristrettoOrder := by
  simp only [pseudo_exponent]
  split
  · assumption
  · exact Nat.coprime_one_left _

theorem pseudo_exponent_isUnit (f : Bytes → Bytes) (ssid username : Bytes) :
    IsUnit ((pseudo_exponent f ssid username : Nat) : Scalar) :=
  (ZMod.isUnit_iff_coprime _ _).mpr (pseudo_exponent_coprime f ssid username)

/-- Claim C1: honest-party key agreement: with X the basepoint-independent
public key g times x and Y the key g times y, the first session key
computed from (ssid, x, Y) equals the one computed from (ssid, y, X), so
`compute_session_key` yields the same session key on both sides, of the
digest output length (64 bytes for a 64-byte digest). -/
theorem honest_key_agreement (f : Bytes → Bytes) (ssid : Bytes)
    (g : RistrettoPoint) (x y : Scalar)
    (hssid : ssid.length = 64) (hf : ∀ bs : Bytes, (f bs).length = 64) :
    compute_first_session_key f ssid x (pmul g y) =
      compute_first_session_key f ssid y (pmul g x) ∧
    compute_session_key f ssid
        (compute_first_session_key f ssid x (pmul g y)) =
      compute_session_key f ssid
        (compute_first_session_key f ssid y (pmul g x)) ∧
    (compute_session_key f ssid
      (compute_first_session_key f ssid x (pmul g y))).length = 64 := by
  have hshared : pmul (pmul g y) x = pmul (pmul g x) y := by
    simp only [pmul]
    ring
  have h1 : compute_first_session_key f ssid x (pmul g y) =
      compute_first_session_key f ssid y (pmul g x) := by
    unfold compute_first_session_key
    rw [hshared]
  exact ⟨h1, by rw [h1], hf _⟩

/-- Witness for C1 at a concrete digest stand-in, a 64-byte ssid, the
point of exponent 2 as generator, and scalars 3 and 5. -/
theorem honest_key_agreement_witness :
    compute_first_session_key (fun _ => List.replicate 64 0)
      (List.replicate 64 1) 3 (pmul 2 5) =
    compute_first_session_key (fun _ => List.replicate 64 0)
      (List.replicate 64 1) 5 (pmul 2 3) ∧
    (compute_session_key (fun _ => List.replicate 64 0) (List.replicate 64 1)
      (compute_first_session_key (fun _ => List.replicate 64 0)
        (List.replicate 64 1) 3 (pmul 2 5))).length = 64 := by
  have h := honest_key_agreement (fun _ => List.replicate 64 0)
    (List.replicate 64 1) 2 3 5 (by simp) (fun bs => by simp)
  exact ⟨h.1, h.2.2⟩

/-- Claim C2: uniform lookup-failure path: when the database lookup for a
username returns `none`, `generate_client_info` (with a functioning
CSPRNG) still returns `Ok`, with group "ristretto255" and default
parameters; in the strong case, called with a non-identity blinded point,
it returns `Ok` with group "ristretto255", default parameters and a
blinded salt that is never the identity. -/
theorem lookup_failure_uniform (f : Bytes → Bytes) (rng : Rng)
    (db : Database) (sdb : StrongDatabase) (ssid username : Bytes)
    (blinded : RistrettoPoint) (rb : Bytes)
    (hrng : rng 64 = some rb)
    (hdb : db.lookup_verifier username = none)
    (hsdb : sdb.lookup_verifier_strong username = none)
    (hB : blinded ≠ 0) :
    (∃ X, generate_client_info f rng db ssid username =
      .ok (.AugmentationInfo "ristretto255" X (pseudo_salt f ssid username)
        ParamsString.default)) ∧
    (∃ X bs, generate_client_info_strong f rng sdb ssid username blinded =
      .ok (.StrongAugmentationInfo "ristretto255" X bs ParamsString.default) ∧
      bs ≠ 0) := by
  constructor
  · refine ⟨pmul RISTRETTO_BASEPOINT_POINT
      (Scalar.from_hash f (Hasher.update ⟨[]⟩ rb) * 1), ?_⟩
    simp [generate_client_info, generate_server_keypair, hrng, hdb]
  · refine ⟨pmul RISTRETTO_BASEPOINT_POINT
      (Scalar.from_hash f (Hasher.update ⟨[]⟩ rb) * 1),
      pmul blinded ((pseudo_exponent f ssid username : Nat) : Scalar),
      ?_, ?_⟩
    · simp [generate_client_info_strong, generate_server_keypair,
        hrng, hsdb, hB]
    · intro h0
      have hu := pseudo_exponent_isUnit f ssid username
      have hq : ((pseudo_exponent f ssid username : Nat) : Scalar) * blinded = 0 := by
        rw [mul_comm]
        exact h0
      exact hB ((IsUnit.mul_right_eq_zero hu).mp hq)

/-- Witness for C2 with empty databases, a functioning CSPRNG and the
basepoint as the blinded point. -/
theorem lookup_failure_uniform_witness :
    (∃ X, generate_client_info id (fun n => some (List.replicate n 1))
      ⟨fun _ => none⟩ [7] [8] =
      .ok (.AugmentationInfo "ristretto255" X (pseudo_salt id [7] [8])
        ParamsString.default)) ∧
    (∃ X bs, generate_client_info_strong id
      (fun n => some (List.replicate n 1)) ⟨fun _ => none⟩ [7] [8] 1 =
      .ok (.StrongAugmentationInfo "ristretto255" X bs ParamsString.default) ∧
      bs ≠ 0) :=
  lookup_failure_uniform id (fun n => some (List.replicate n 1))
    ⟨fun _ => none⟩ ⟨fun _ => none⟩ [7] [8] 1 (List.replicate 64 1)
    rfl rfl rfl one_ne_zero
